import Mathlib

/-!
Shallow embedding of the token accounting engine of the `tokuin` CLI
(model/pricing registry, tokenizer backends, message parsers, counting and
diff logic), together with proofs settling the specification claims.

Conventions of the embedding:
* Rust `usize` counters are `Nat` (no overflow is reachable in the counting
  paths for realistic inputs, and the source never relies on wrap-around).
* Rust `f64` prices and costs are embedded as `ℚ`; every price literal in
  the source is an exact decimal fraction and the claims under study concern
  the algebraic structure of the computations, not rounding.
* Rust `HashMap<String, ModelInfo>` is embedded as an association list with
  first-match lookup; insertion prepends, which models last-write-wins.
* external collaborators (the tiktoken BPE vocabulary lookup, the optional
  SentencePiece processor) are parameters of the embedding: functions
  supplied from outside, never consulted for their internals.
-/

namespace Tokuin

/-- `ModelInfo` from src/models/registry.rs: provider, model and the two
optional per-1K prices. -/
structure ModelInfo where
  provider : String
  model : String
  input_price : Option ℚ
  output_price : Option ℚ
deriving Repr, DecidableEq

/-- `Message` from src/parsers/mod.rs: a role-tagged content string. -/
structure Message where
  role : String
  content : String
deriving Repr, DecidableEq

/-- `TokenBreakdown` from src/output/mod.rs. -/
structure TokenBreakdown where
  system : Nat
  user : Nat
  assistant : Nat
  total : Nat
deriving Repr, DecidableEq

/-- `TokenBreakdown::new` from src/output/mod.rs: all counts zero. -/
def TokenBreakdown.new : TokenBreakdown :=
  { system := 0, user := 0, assistant := 0, total := 0 }

/-- `TokenResult` from src/output/mod.rs. -/
structure TokenResult where
  model : String
  tokens : Nat
  input_cost : Option ℚ
  output_cost : Option ℚ
  breakdown : Option TokenBreakdown
deriving Repr, DecidableEq

/-- `TokenizerError` from src/error.rs (payload strings kept where the
claims inspect them). -/
inductive TokenizerError where
  | initializationFailed (msg : String)
  | unsupportedModel (model : String)
  | invalidInput (msg : String)
  | encodingFailed (msg : String)
  | decodingFailed (msg : String)
deriving Repr, DecidableEq

/-- `ModelError` from src/error.rs. -/
inductive ModelError where
  | modelNotFound (model : String)
  | configLoadFailed (msg : String)
  | invalidPricing (msg : String)
  | tokenizer (e : TokenizerError)
deriving Repr, DecidableEq

/-- `ParseError` from src/error.rs. -/
inductive ParseError where
  | invalidJson (msg : String)
  | invalidFormat (msg : String)
  | missingField (field : String)
  | io (msg : String)
deriving Repr, DecidableEq

/-- `AppError` from src/error.rs (load-test variants are feature-gated out
of the core and omitted). -/
inductive AppError where
  | tokenizer (e : TokenizerError)
  | model (e : ModelError)
  | parse (e : ParseError)
  | io (msg : String)
deriving Repr, DecidableEq

/-- Rust `str::starts_with(pattern)` on strings, embedded as a data-list
check. -/
def strStartsWith (s pat : String) : Bool :=
  pat.data.isPrefixOf s.data

/-- Rust `str::to_lowercase`, embedded character-wise (the model-name
alphabet in the source is ASCII, where the two agree). -/
def strToLower (s : String) : String :=
  String.mk (s.data.map Char.toLower)

/-- `model_name.rsplit('/').next().unwrap_or(model_name)` from
`ModelRegistry::resolve_alias`: the segment after the last `/`, the whole
string when no `/` occurs. -/
def afterLastSlash (l : List Char) : List Char :=
  (l.reverse.takeWhile (fun c => c ≠ '/')).reverse

/-- The `Tokenizer` capability contract of src/tokenizers/trait_impl.rs.
Modelled from the spec: trait_impl.rs itself is not under src/; the
operation set and signatures follow spec §4.1 and the two backend
implementations in openai.rs and gemini.rs (`name` and the two price
accessors return stored fields in both backends). -/
structure Tokenizer where
  encode : String → Except TokenizerError (List Nat)
  decode : List Nat → Except TokenizerError String
  count_tokens : String → Except TokenizerError Nat
  name : String
  input_price_per_1k : Option ℚ
  output_price_per_1k : Option ℚ

/-- The external `tiktoken_rs::CoreBPE` vocabulary object used by
src/tokenizers/openai.rs, abstracted to the two operations the source
calls on it. -/
structure CoreBPE where
  encode_with_special_tokens : String → List Nat
  decode_bpe : List Nat → Except String String

/-- The pricing match in `OpenAITokenizer::new` (src/tokenizers/openai.rs
lines 61-69), with the decimal literals written as exact fractions. -/
def openaiPricing (model : String) : Option ℚ × Option ℚ :=
  if model = "gpt-4" ∨ model = "gpt-4-0314" ∨ model = "gpt-4-32k" ∨
      model = "gpt-4-32k-0314" then
    (some (3/100), some (6/100))
  else if model = "gpt-4-turbo-preview" ∨ model = "gpt-4-turbo" ∨
      model = "gpt-4-0125-preview" then
    (some (1/100), some (3/100))
  else if model = "gpt-3.5-turbo" ∨ model = "gpt-3.5-turbo-0301" then
    (some (15/10000), some (2/1000))
  else if model = "gpt-3.5-turbo-16k" then
    (some (3/1000), some (4/1000))
  else (none, none)

/-- `OpenAITokenizer` from src/tokenizers/openai.rs. -/
structure OpenAITokenizer where
  bpe : CoreBPE
  model_name : String
  input_price : Option ℚ
  output_price : Option ℚ

/-- `OpenAITokenizer::new` (src/tokenizers/openai.rs): look the model up in
the external tiktoken vocabulary table (`get_bpe_from_model`, passed in as
`getBpe`), fail with `InitializationFailed` when absent, and attach the
hard-coded pricing. -/
def OpenAITokenizer.new (getBpe : String → Option CoreBPE) (model : String) :
    Except TokenizerError OpenAITokenizer :=
  match getBpe model with
  | none => .error (.initializationFailed
      ("Failed to initialize tokenizer for model " ++ model))
  | some bpe =>
    .ok { bpe := bpe, model_name := model,
          input_price := (openaiPricing model).1,
          output_price := (openaiPricing model).2 }

/-- The `Tokenizer` impl for `OpenAITokenizer` (src/tokenizers/openai.rs
lines 80-113): both `encode` and `count_tokens` call
`encode_with_special_tokens`. -/
def OpenAITokenizer.toTokenizer (t : OpenAITokenizer) : Tokenizer where
  encode := fun text => .ok (t.bpe.encode_with_special_tokens text)
  decode := fun tokens =>
    (t.bpe.decode_bpe tokens).mapError TokenizerError.decodingFailed
  count_tokens := fun text => .ok (t.bpe.encode_with_special_tokens text).length
  name := t.model_name
  input_price_per_1k := t.input_price
  output_price_per_1k := t.output_price

/-- The external `sentencepiece::SentencePieceProcessor` used by
src/tokenizers/gemini.rs, abstracted to the operations called on it. -/
structure SentencePieceProcessor where
  spEncode : String → Except String (List Nat)
  spDecode : List Nat → Except String String

/-- The pricing match in `GeminiTokenizer::new` (src/tokenizers/gemini.rs
lines 50-60): 0.00125 = 1/800, 0.01 = 1/100, 0.000075 = 3/40000,
0.0003 = 3/10000. -/
def geminiPricing (model : String) : Option ℚ × Option ℚ :=
  if model = "gemini-2.5-pro" ∨ model = "gemini-pro" then
    (some (1/800), some (1/100))
  else if model = "gemini-2.5-flash" ∨ model = "gemini-flash" then
    (some (3/40000), some (3/10000))
  else (none, none)

/-- `GeminiTokenizer` from src/tokenizers/gemini.rs. -/
structure GeminiTokenizer where
  processor : Option SentencePieceProcessor
  model_name : String
  input_price : Option ℚ
  output_price : Option ℚ

/-- `GeminiTokenizer::new` (src/tokenizers/gemini.rs lines 48-69): never
fails, constructs with no processor and the hard-coded pricing. -/
def GeminiTokenizer.new (model : String) : Except TokenizerError GeminiTokenizer :=
  .ok { processor := none, model_name := model,
        input_price := (geminiPricing model).1,
        output_price := (geminiPricing model).2 }

/-- `text.chars().collect::<Vec<_>>().chunks(4).map(|_| 1).collect()` from
the fallback branch of `GeminiTokenizer::encode` (src/tokenizers/gemini.rs
lines 118-123): one `1` per chunk of up to four characters. -/
def chunkOnes : List Char → List Nat
  | [] => []
  | [_] => [1]
  | [_, _] => [1]
  | [_, _, _] => [1]
  | _ :: _ :: _ :: _ :: rest => 1 :: chunkOnes rest

/-- The `Tokenizer` impl for `GeminiTokenizer` (src/tokenizers/gemini.rs
lines 106-167).  The fallback `count_tokens` computes
`(text.chars().count() as f64 / 4.0).ceil() as usize`; division of a
`usize`-sized value by the power of two `4.0` is exact in `f64`, so this is
the ceiling `(n + 3) / 4` on `Nat`. -/
def GeminiTokenizer.toTokenizer (t : GeminiTokenizer) : Tokenizer where
  encode := fun text =>
    match t.processor with
    | some p => (p.spEncode text).mapError TokenizerError.encodingFailed
    | none => .ok (chunkOnes text.data)
  decode := fun tokens =>
    match t.processor with
    | some p => (p.spDecode tokens).mapError TokenizerError.decodingFailed
    | none => .error (.decodingFailed "Decoding requires SentencePiece model file")
  count_tokens := fun text =>
    match t.processor with
    | some p =>
      ((p.spEncode text).mapError TokenizerError.encodingFailed).map List.length
    | none => .ok ((text.length + 3) / 4)
  name := t.model_name
  input_price_per_1k := t.input_price
  output_price_per_1k := t.output_price

/-- The `models: HashMap<String, ModelInfo>` of `ModelRegistry`
(src/models/registry.rs), embedded as an association list: lookup takes the
first match, insertion prepends (last write wins). -/
def ModelMap := List (String × ModelInfo)

/-- `HashMap::get` on the embedded map. -/
def ModelMap.get (m : ModelMap) (key : String) : Option ModelInfo :=
  match m with
  | [] => none
  | (k, v) :: rest => if k = key then some v else ModelMap.get rest key

/-- `ModelRegistry` from src/models/registry.rs. -/
structure ModelRegistry where
  models : ModelMap

/-- `ModelRegistry::upsert_model` (src/models/registry.rs lines 163-194):
store the info under the bare name, `"{provider}/{model}"` and the
lowercased bare name; `entry(..).and_modify(..).or_insert_with(..)`
replaces every field, i.e. overwrites wholesale. -/
def ModelRegistry.upsert_model (r : ModelRegistry) (provider model : String)
    (input_price output_price : Option ℚ) : ModelRegistry :=
  let info : ModelInfo :=
    { provider := provider, model := model,
      input_price := input_price, output_price := output_price }
  let keys := [model, provider ++ "/" ++ model, strToLower model]
  { models := keys.foldl (fun m k => (k, info) :: m) r.models }

/-- `ModelRegistry::register_default_models` (src/models/registry.rs lines
102-118), with both the `openai` and `gemini` feature blocks present (the
default build links both backends). -/
def ModelRegistry.register_default_models (r : ModelRegistry) : ModelRegistry :=
  ((((((r.upsert_model "openai" "gpt-4" (some (3/100)) (some (6/100))).upsert_model
      "openai" "gpt-4-turbo" (some (1/100)) (some (3/100))).upsert_model
      "openai" "gpt-3.5-turbo" (some (15/10000)) (some (2/1000))).upsert_model
      "google" "gemini-pro" (some (1/800)) (some (1/100))).upsert_model
      "google" "gemini-2.5-pro" (some (1/800)) (some (1/100))).upsert_model
      "google" "gemini-2.5-flash" (some (3/40000)) (some (3/10000)))

/-- `ModelRegistry::new` (src/models/registry.rs lines 35-41): an empty map
seeded with the default models. -/
def ModelRegistry.new : ModelRegistry :=
  ModelRegistry.register_default_models { models := [] }

/-- `ModelRegistry::resolve_alias` (src/models/registry.rs lines 196-203):
keep the portion after the last `/`, then apply the fixed equivalence
table. -/
def ModelRegistry.resolve_alias (model_name : String) : String :=
  let base := String.mk (afterLastSlash model_name.data)
  if base = "gpt-4-turbo" ∨ base = "gpt-4-turbo-preview" then
    "gpt-4-turbo-preview"
  else base

/-- `ModelRegistry::get_model_info` (src/models/registry.rs lines 52-61):
direct lookup first, then lookup under the resolved alias.  Note the query
is never lowercased. -/
def ModelRegistry.get_model_info (r : ModelRegistry) (model_name : String) :
    Option ModelInfo :=
  match r.models.get model_name with
  | some info => some info
  | none => r.models.get (ModelRegistry.resolve_alias model_name)

/-- `ModelRegistry::pricing_for` (src/models/registry.rs lines 146-153):
a pair only when both prices are present. -/
def ModelRegistry.pricing_for (r : ModelRegistry) (model_name : String) :
    Option (ℚ × ℚ) :=
  match r.get_model_info model_name with
  | none => none
  | some info =>
    match info.input_price, info.output_price with
    | some input, some output => some (input, output)
    | _, _ => none

/-- `ModelPricing` from src/models/pricing.rs.  Modelled from the spec:
pricing.rs is not under src/; the `{input, output}` shape follows spec §6
and the field accesses `pricing.input` / `pricing.output` in
`ModelRegistry::apply_pricing_config`. -/
structure ModelPricing where
  input : ℚ
  output : ℚ
deriving Repr, DecidableEq

/-- `ProviderPricing` from src/models/pricing.rs.  Modelled from the spec:
a `models` table mapping model name to `ModelPricing` (spec §6 schema
`providers -> provider -> models -> model -> {input, output}`). -/
structure ProviderPricing where
  models : List (String × ModelPricing)
deriving Repr, DecidableEq

/-- `PricingConfig` from src/models/pricing.rs.  Modelled from the spec:
a `providers` table mapping provider name to `ProviderPricing`. -/
structure PricingConfig where
  providers : List (String × ProviderPricing)
deriving Repr, DecidableEq

/-- `ModelRegistry::apply_pricing_config` (src/models/registry.rs lines
155-161): upsert every override entry with both prices present. -/
def ModelRegistry.apply_pricing_config (r : ModelRegistry)
    (config : PricingConfig) : ModelRegistry :=
  config.providers.foldl
    (fun r pp =>
      pp.2.models.foldl
        (fun r mp =>
          r.upsert_model pp.1 mp.1 (some mp.2.input) (some mp.2.output))
        r)
    r

/-- `ModelRegistry::get_tokenizer` (src/models/registry.rs lines 77-99):
resolve the alias, dispatch on the model-name prefix, wrap tokenizer
construction failures in `ModelError`.  The registry's `models` map is
never consulted.  `getBpe` is the external tiktoken vocabulary table used
by `OpenAITokenizer::new`. -/
def ModelRegistry.get_tokenizer (getBpe : String → Option CoreBPE)
    (r : ModelRegistry) (model_name : String) :
    Except ModelError Tokenizer :=
  let model := ModelRegistry.resolve_alias model_name
  if strStartsWith model "gpt-" ∨ strStartsWith model "text-" then
    ((OpenAITokenizer.new getBpe model).map
      OpenAITokenizer.toTokenizer).mapError ModelError.tokenizer
  else if strStartsWith model "gemini-" then
    ((GeminiTokenizer.new model).map
      GeminiTokenizer.toTokenizer).mapError ModelError.tokenizer
  else
    .error (.modelNotFound model_name)

/-- The prices a tokenizer handed out by `ModelRegistry::get_tokenizer`
carries, as a pure function of the requested name: the alias-resolved name
dispatched through the two hard-coded backend price tables.  (Used to state
that run-path costs come only from these tables.) -/
def hardcodedPrices (model_name : String) : Option ℚ × Option ℚ :=
  let model := ModelRegistry.resolve_alias model_name
  if strStartsWith model "gpt-" ∨ strStartsWith model "text-" then
    openaiPricing model
  else if strStartsWith model "gemini-" then
    geminiPricing model
  else (none, none)

/-- `TextParser::parse` (src/parsers/text.rs lines 23-30): always succeeds
with a single `"user"` message holding the input verbatim. -/
def TextParser.parse (input : String) : Except ParseError (List Message) :=
  .ok [{ role := "user", content := input }]

/-- `JsonMessage` from src/parsers/json.rs: the serde target shape. -/
structure JsonMessage where
  role : String
  content : String
deriving Repr, DecidableEq

/-- JSON whitespace (also what `str::trim_start` strips from the inputs the
source routes: the model keeps the four ASCII whitespace characters, which
agree with Rust on every input the claims evaluate). -/
def isJsonWs (c : Char) : Bool :=
  c = ' ' ∨ c = '\t' ∨ c = '\n' ∨ c = '\r'

/-- Skip JSON whitespace. -/
def skipWs (l : List Char) : List Char :=
  l.dropWhile isJsonWs

/-- One-character JSON string escapes. -/
def jsonEscape (c : Char) : Option Char :=
  if c = '"' then some '"'
  else if c = '\\' then some '\\'
  else if c = '/' then some '/'
  else if c = 'b' then some (Char.ofNat 8)
  else if c = 'f' then some (Char.ofNat 12)
  else if c = 'n' then some '\n'
  else if c = 'r' then some '\r'
  else if c = 't' then some '\t'
  else none

/-- Hex digit value. -/
def hexVal (c : Char) : Option Nat :=
  if '0' ≤ c ∧ c ≤ '9' then some (c.toNat - '0'.toNat)
  else if 'a' ≤ c ∧ c ≤ 'f' then some (c.toNat - 'a'.toNat + 10)
  else if 'A' ≤ c ∧ c ≤ 'F' then some (c.toNat - 'A'.toNat + 10)
  else none

/-- Body of a JSON string after the opening quote: accumulated characters
and the remainder after the closing quote.  `\uXXXX` escapes outside the
surrogate range are mapped to the corresponding scalar (the serde subset
the embedded inputs exercise). -/
def parseStringBody : Nat → List Char → List Char →
    Option (String × List Char)
  | 0, _, _ => none
  | fuel + 1, acc, cs =>
    match cs with
    | [] => none
    | '"' :: rest => some (String.mk acc.reverse, rest)
    | '\\' :: e :: rest =>
      match jsonEscape e with
      | some c => parseStringBody fuel (c :: acc) rest
      | none =>
        if e = 'u' then
          match rest with
          | a :: b :: c :: d :: rest2 =>
            match hexVal a, hexVal b, hexVal c, hexVal d with
            | some va, some vb, some vc, some vd =>
              parseStringBody fuel
                (Char.ofNat (((va * 16 + vb) * 16 + vc) * 16 + vd) :: acc) rest2
            | _, _, _, _ => none
          | _ => none
        else none
    | c :: rest => parseStringBody fuel (c :: acc) rest

/-- A JSON string token: leading whitespace, quote, body. -/
def parseJsonString (fuel : Nat) (cs : List Char) :
    Option (String × List Char) :=
  match skipWs cs with
  | '"' :: rest => parseStringBody fuel [] rest
  | _ => none

/-- Members of a JSON object after the opening `{`, restricted to
string-valued members (the only member shape the `JsonMessage` inputs of
src/parsers/json.rs carry). -/
def parseMembers : Nat → List Char → Option (List (String × String) × List Char)
  | 0, _ => none
  | fuel + 1, cs =>
    match skipWs cs with
    | '}' :: rest => some ([], rest)
    | cs2 =>
      match parseJsonString fuel cs2 with
      | none => none
      | some (key, afterKey) =>
        match skipWs afterKey with
        | ':' :: afterColon =>
          match parseJsonString fuel afterColon with
          | none => none
          | some (value, afterValue) =>
            match skipWs afterValue with
            | ',' :: afterComma =>
              match parseMembers fuel afterComma with
              | some (others, rest) => some ((key, value) :: others, rest)
              | none => none
            | '}' :: rest => some ([(key, value)], rest)
            | _ => none
        | _ => none

/-- Extract the value of a field that must occur exactly once (serde
rejects both a missing and a duplicated struct field). -/
def uniqueField (members : List (String × String)) (field : String) :
    Option String :=
  match members.filter (fun m => m.1 = field) with
  | [(_, v)] => some v
  | _ => none

/-- Deserialize one `JsonMessage` from an object's members: `role` and
`content` each exactly once; other (string-valued) members are ignored as
serde ignores unknown fields. -/
def messageOfMembers (members : List (String × String)) : Option JsonMessage :=
  match uniqueField members "role", uniqueField members "content" with
  | some role, some content => some { role := role, content := content }
  | _, _ => none

/-- One JSON `{role, content}` object. -/
def parseMessageObject (fuel : Nat) (cs : List Char) :
    Option (JsonMessage × List Char) :=
  match skipWs cs with
  | '{' :: rest =>
    match parseMembers fuel rest with
    | some (members, rest2) =>
      match messageOfMembers members with
      | some msg => some (msg, rest2)
      | none => none
    | none => none
  | _ => none

/-- Elements of a JSON array of message objects after the opening `[`. -/
def parseMessageArray : Nat → List Char → Option (List JsonMessage × List Char)
  | 0, _ => none
  | fuel + 1, cs =>
    match skipWs cs with
    | ']' :: rest => some ([], rest)
    | cs2 =>
      match parseMessageObject fuel cs2 with
      | none => none
      | some (msg, afterMsg) =>
        match skipWs afterMsg with
        | ',' :: afterComma =>
          match parseMessageArray fuel afterComma with
          | some (others, rest) => some (msg :: others, rest)
          | none => none
        | ']' :: rest => some ([msg], rest)
        | _ => none

/-- `serde_json::from_str::<Vec<JsonMessage>>` on the message-list shape:
a top-level array of `{role, content}` objects with nothing but whitespace
after it. -/
def fromStrMessageVec (input : String) : Option (List JsonMessage) :=
  match skipWs input.data with
  | '[' :: rest =>
    match parseMessageArray (input.length + 1) rest with
    | some (msgs, rest2) => if skipWs rest2 = [] then some msgs else none
    | none => none
  | _ => none

/-- `serde_json::from_str::<JsonMessage>` on the single-object shape. -/
def fromStrMessage (input : String) : Option JsonMessage :=
  match skipWs input.data with
  | '{' :: rest =>
    match parseMembers (input.length + 1) rest with
    | some (members, rest2) =>
      if skipWs rest2 = [] then messageOfMembers members else none
    | none => none
  | _ => none

/-- `JsonParser::parse` (src/parsers/json.rs lines 33-56): try the array
shape, then the single-object shape, else `InvalidFormat`. -/
def JsonParser.parse (input : String) : Except ParseError (List Message) :=
  match fromStrMessageVec input with
  | some msgs =>
    .ok (msgs.map (fun m => { role := m.role, content := m.content }))
  | none =>
    match fromStrMessage input with
    | some m => .ok [{ role := m.role, content := m.content }]
    | none => .error (.invalidFormat "Input is not valid JSON message format")

/-- The format-detection condition of `Cli::run` / `Cli::run_diff`
(src/cli.rs lines 126-132, 268-280):
`input.trim_start().starts_with('{') || input.trim_start().starts_with('[')`. -/
def isJsonInput (input : String) : Bool :=
  match skipWs input.data with
  | c :: _ => c = '{' ∨ c = '['
  | [] => false

/-- Parser selection plus parse, as wired in `Cli::run` and
`Cli::run_diff`. -/
def chooseParse (input : String) : Except ParseError (List Message) :=
  if isJsonInput input then JsonParser.parse input else TextParser.parse input

/-- The role dispatch inside the counting loop of `Cli::count_tokens`
(src/cli.rs lines 205-212): add the count to the matching bucket,
unrecognized roles update no bucket. -/
def addRole (b : TokenBreakdown) (role : String) (count : Nat) : TokenBreakdown :=
  if role = "system" then { b with system := b.system + count }
  else if role = "user" then { b with user := b.user + count }
  else if role = "assistant" then { b with assistant := b.assistant + count }
  else b

/-- The message loop of `Cli::count_tokens` (src/cli.rs lines 201-213):
accumulate the running total and, when a breakdown is carried, the role
buckets; a tokenizer failure aborts via `?`. -/
def countLoop (tok : Tokenizer) :
    List Message → Nat → Option TokenBreakdown →
    Except TokenizerError (Nat × Option TokenBreakdown)
  | [], total, bd => .ok (total, bd)
  | msg :: rest, total, bd =>
    match tok.count_tokens msg.content with
    | .error e => .error e
    | .ok count =>
      countLoop tok rest (total + count)
        (bd.map (fun b => addRole b msg.role count))

/-- The per-message counts of a message list under a tokenizer (the values
summed by the loop), for stating the breakdown invariant. -/
def msgCounts (tok : Tokenizer) : List Message → Except TokenizerError (List Nat)
  | [] => .ok []
  | msg :: rest =>
    match tok.count_tokens msg.content with
    | .error e => .error e
    | .ok count => (msgCounts tok rest).map (fun l => count :: l)

/-- `Cli::count_tokens` (src/cli.rs lines 187-243): run the loop, write the
total into the breakdown, and compute each cost as
`(total as f64 / 1000.0) * price` when pricing was requested and the
tokenizer reports a price. -/
def count_tokens (tok : Tokenizer) (messages : List Message)
    (model_name : String) (breakdown price : Bool) :
    Except AppError TokenResult :=
  match countLoop tok messages 0
      (if breakdown then some TokenBreakdown.new else none) with
  | .error e => .error (.tokenizer e)
  | .ok (total, bd0) =>
    .ok { model := model_name, tokens := total,
          input_cost :=
            if price then
              tok.input_price_per_1k.map (fun p => (total : ℚ) / 1000 * p)
            else none,
          output_cost :=
            if price then
              tok.output_price_per_1k.map (fun p => (total : ℚ) / 1000 * p)
            else none,
          breakdown := bd0.map (fun b => { b with total := total }) }

/-- The per-model loop of `Cli::run` (src/cli.rs lines 137-142): construct
a tokenizer and count for each model, any failure aborting the whole
comparison. -/
def processModels (getBpe : String → Option CoreBPE) (r : ModelRegistry)
    (messages : List Message) (breakdown price : Bool) :
    List String → Except AppError (List TokenResult)
  | [] => .ok []
  | name :: rest =>
    match r.get_tokenizer getBpe name with
    | .error e => .error (.model e)
    | .ok tok =>
      match count_tokens tok messages name breakdown price with
      | .error e => .error e
      | .ok res =>
        (processModels getBpe r messages breakdown price rest).map
          (fun l => res :: l)

/-- The core of `Cli::run` (src/cli.rs lines 77-158), with I/O already
performed (the input is a string) and presentation omitted: the registry is
`ModelRegistry::new()` with no pricing overrides; the models are the
compare list if non-empty, else the single `--model`, else an
`InvalidFormat` argument error; the input is routed by `isJsonInput`; then
the per-model loop runs. -/
def run (getBpe : String → Option CoreBPE) (input : String)
    (model : Option String) (compare : List String)
    (breakdown price : Bool) : Except AppError (List TokenResult) :=
  let registry := ModelRegistry.new
  match
    (if compare ≠ [] then Except.ok compare
     else
       match model with
       | some m => Except.ok [m]
       | none =>
         Except.error (AppError.parse (ParseError.invalidFormat
           "No model specified. Use --model or --compare"))) with
  | .error e => .error e
  | .ok models =>
    match chooseParse input with
    | .error e => .error (.parse e)
    | .ok messages => processModels getBpe registry messages breakdown price models

/-- The values reported by `Cli::run_diff` (src/cli.rs lines 289-305):
model, both token counts, the signed difference, and the absolute cost
difference when both sides carry an input cost. -/
structure DiffResult where
  model : String
  original : Nat
  modified : Nat
  delta : Int
  cost_diff : Option ℚ
deriving Repr, DecidableEq

/-- `Cli::run_diff` (src/cli.rs lines 246-308), with the two inputs already
read: missing `--model` is an `InvalidFormat` argument error; otherwise one
tokenizer is constructed from `ModelRegistry::new()`, both inputs are
routed and parsed, both are counted with breakdown disabled, and the report
carries `tokens2 - tokens1` as a signed integer plus `|cost2 - cost1|` when
pricing was requested and both counts have an input cost.  The `compare`
list of the CLI is taken as an argument and, as in the source, never
consulted. -/
def run_diff (getBpe : String → Option CoreBPE) (input1 input2 : String)
    (model : Option String) (compare : List String) (price : Bool) :
    Except AppError DiffResult :=
  let registry := ModelRegistry.new
  match model with
  | none =>
    .error (.parse (.invalidFormat "Model required for diff mode. Use --model"))
  | some m =>
    match registry.get_tokenizer getBpe m with
    | .error e => .error (.model e)
    | .ok tok =>
      match chooseParse input1 with
      | .error e => .error (.parse e)
      | .ok messages1 =>
        match chooseParse input2 with
        | .error e => .error (.parse e)
        | .ok messages2 =>
          match count_tokens tok messages1 m false price with
          | .error e => .error e
          | .ok result1 =>
            match count_tokens tok messages2 m false price with
            | .error e => .error e
            | .ok result2 =>
              .ok { model := m,
                    original := result1.tokens,
                    modified := result2.tokens,
                    delta := (result2.tokens : Int) - (result1.tokens : Int),
                    cost_diff :=
                      if price then
                        match result1.input_cost, result2.input_cost with
                        | some c1, some c2 => some |c2 - c1|
                        | _, _ => none
                      else none }

/-- The default registry with the pricing override of the claimed scenario
applied: `gpt-4` under provider `openai` overridden to input 0.02 = 2/100
and output 0.04 = 4/100 per 1K tokens. -/
def overriddenRegistry : ModelRegistry :=
  ModelRegistry.new.apply_pricing_config
    { providers := [("openai", { models := [("gpt-4", { input := 2/100, output := 4/100 })] })] }

/-- A registry holding a model with only an input price, for exercising the
half-priced branch of `pricing_for`. -/
def halfPricedRegistry : ModelRegistry :=
  ModelRegistry.new.upsert_model "custom" "half-model" (some (1/100)) none

/-- The tokenizer `GeminiTokenizer::new("gemini-pro")` constructs: no
processor, the hard-coded gemini-pro pricing. -/
def geminiPro : GeminiTokenizer :=
  { processor := none, model_name := "gemini-pro",
    input_price := some (1/800), output_price := some (1/100) }

/-- Whether an `AppError` is one of the tokenizer-lookup failure conditions
(`ModelNotFound` or `InitializationFailed`, the latter possibly wrapped by
the registry). -/
def isModelLookupError : AppError → Bool
  | .model (.modelNotFound _) => true
  | .model (.tokenizer (.initializationFailed _)) => true
  | .tokenizer (.initializationFailed _) => true
  | _ => false

theorem afterLastSlash_no_slash (l : List Char) : '/' ∉ afterLastSlash l := by
  intro h
  rw [afterLastSlash, List.mem_reverse] at h
  have := List.mem_takeWhile_imp h
  simp at this

theorem afterLastSlash_of_no_slash (l : List Char) (h : '/' ∉ l) :
    afterLastSlash l = l := by
  rw [afterLastSlash, List.takeWhile_eq_self_iff.mpr, List.reverse_reverse]
  intro x hx
  rw [List.mem_reverse] at hx
  simp only [decide_eq_true_eq]
  intro hx'
  exact h (hx' ▸ hx)

theorem resolve_alias_no_slash (u : String) (hu : '/' ∉ u.data) :
    ModelRegistry.resolve_alias u =
      (if u = "gpt-4-turbo" ∨ u = "gpt-4-turbo-preview" then
        "gpt-4-turbo-preview" else u) := by
  unfold ModelRegistry.resolve_alias
  rw [afterLastSlash_of_no_slash _ hu]

/-- Claim C7: alias resolution is idempotent — resolving the result of
resolving any model name string gives the same string as resolving once. -/
theorem resolve_alias_idempotent (s : String) :
    ModelRegistry.resolve_alias (ModelRegistry.resolve_alias s) =
      ModelRegistry.resolve_alias s := by
  have h1 : ModelRegistry.resolve_alias s =
      (if String.mk (afterLastSlash s.data) = "gpt-4-turbo" ∨
          String.mk (afterLastSlash s.data) = "gpt-4-turbo-preview" then
        "gpt-4-turbo-preview" else String.mk (afterLastSlash s.data)) := rfl
  by_cases h : String.mk (afterLastSlash s.data) = "gpt-4-turbo" ∨
      String.mk (afterLastSlash s.data) = "gpt-4-turbo-preview"
  · rw [h1, if_pos h]
    rfl
  · rw [h1, if_neg h]
    rw [resolve_alias_no_slash (String.mk (afterLastSlash s.data))
      (afterLastSlash_no_slash s.data), if_neg h]

/-- Claim C8: the plain-text parser never fails and wraps the whole input
verbatim as exactly one message with role `"user"`; at `input = ""` this is
one message with empty content, not zero messages. -/
theorem text_parse_single_user_message (input : String) :
    TextParser.parse input = .ok [{ role := "user", content := input }] := rfl

/-- Claim C1 (counterexample): with the 0.02 override applied, the query
`"GPT-4"` does not report 0.02 — `pricing_for` returns `none`, because
`get_model_info` never lowercases the query and only lowercased keys were
registered. -/
theorem pricing_override_uppercase_query_fails :
    overriddenRegistry.pricing_for "GPT-4" = none ∧
    ¬ (overriddenRegistry.pricing_for "GPT-4").map Prod.fst = some (2/100) := by
  have h : overriddenRegistry.pricing_for "GPT-4" = none := by decide
  exact ⟨h, by simp [h]⟩

/-- Claim C1 (amended): after the 0.02 override, lookups under the bare key
`"gpt-4"` and the provider-prefixed key `"openai/gpt-4"` both report input
price 0.02, and the override is also stored under the lowercased bare key
(which coincides with `"gpt-4"`) — but the mixed-case query `"GPT-4"`
returns `none`, since queries are not lowercased. -/
theorem pricing_override_applied_keys :
    overriddenRegistry.pricing_for "gpt-4" = some (2/100, 4/100) ∧
    overriddenRegistry.pricing_for "openai/gpt-4" = some (2/100, 4/100) ∧
    overriddenRegistry.pricing_for (strToLower "GPT-4") = some (2/100, 4/100) ∧
    overriddenRegistry.pricing_for "GPT-4" = none :=
  ⟨rfl, rfl, rfl, by decide⟩

/-- Claim C3 (counterexample): diff mode invoked without a model fails with
the CLI-argument `InvalidFormat` parse error, which is not a
`ModelNotFound`/`InitializationFailed` tokenizer-lookup condition. -/
theorem diff_no_model_error_shape :
    run_diff (fun _ => none) "baseline" "modified" none [] false =
      .error (.parse (.invalidFormat "Model required for diff mode. Use --model")) ∧
    isModelLookupError
      (.parse (.invalidFormat "Model required for diff mode. Use --model")) = false :=
  ⟨rfl, rfl⟩

/-- Claim C3 (amended): diff mode without a model fails with the
`InvalidFormat` parse error `"Model required for diff mode. Use --model"`
(argument misuse, not the tokenizer-lookup conditions), for every pair of
inputs, every external vocabulary table and every pricing flag; and diff
mode never consults the comparison list — its outcome is identical under
any two comparison lists. -/
theorem diff_no_model_invalid_format (getBpe : String → Option CoreBPE)
    (input1 input2 : String) (compare : List String) (price : Bool) :
    run_diff getBpe input1 input2 none compare price =
      .error (.parse (.invalidFormat "Model required for diff mode. Use --model")) ∧
    ∀ model compare2, run_diff getBpe input1 input2 model compare price =
      run_diff getBpe input1 input2 model compare2 price :=
  ⟨rfl, fun _ _ => rfl⟩

/-- Claim C10: the structured input `"[]"` is routed to the JSON parser,
parses to zero messages, and counting yields a `TokenResult` with zero
tokens — while empty plain-text input is routed to the text parser and
yields one empty user message. -/
theorem empty_json_array_zero_tokens :
    isJsonInput "[]" = true ∧
    JsonParser.parse "[]" = .ok [] ∧
    run (fun _ => none) "[]" (some "gemini-pro") [] false false =
      .ok [{ model := "gemini-pro", tokens := 0, input_cost := none,
             output_cost := none, breakdown := none }] ∧
    isJsonInput "" = false ∧
    TextParser.parse "" = .ok [{ role := "user", content := "" }] :=
  ⟨rfl, rfl, rfl, rfl, rfl⟩

theorem countLoop_total (tok : Tokenizer) :
    ∀ (msgs : List Message) (total : Nat) (bd : Option TokenBreakdown)
      (res : Nat × Option TokenBreakdown),
      countLoop tok msgs total bd = .ok res →
      ∃ counts, msgCounts tok msgs = .ok counts ∧ res.1 = total + counts.sum := by
  intro msgs
  induction msgs with
  | nil =>
    intro total bd res h
    simp only [countLoop] at h
    cases h
    exact ⟨[], rfl, by simp⟩
  | cons msg rest ih =>
    intro total bd res h
    simp only [countLoop] at h
    cases hc : tok.count_tokens msg.content with
    | error e => rw [hc] at h; cases h
    | ok count =>
      rw [hc] at h
      obtain ⟨counts, hm, ht⟩ := ih _ _ _ h
      refine ⟨count :: counts, ?_, ?_⟩
      · simp only [msgCounts, hc, hm, Except.map]
      · simp only [List.sum_cons]
        omega

theorem addRole_sum_le (b : TokenBreakdown) (role : String) (count : Nat) :
    (addRole b role count).system + (addRole b role count).user +
        (addRole b role count).assistant ≤
      b.system + b.user + b.assistant + count := by
  unfold addRole
  split_ifs <;> simp <;> omega

theorem addRole_sum_eq (b : TokenBreakdown) (role : String) (count : Nat)
    (h : role = "system" ∨ role = "user" ∨ role = "assistant") :
    (addRole b role count).system + (addRole b role count).user +
        (addRole b role count).assistant =
      b.system + b.user + b.assistant + count := by
  unfold addRole
  rcases h with h | h | h <;> subst h <;> simp <;> omega

theorem countLoop_buckets (tok : Tokenizer) :
    ∀ (msgs : List Message) (total : Nat) (b : TokenBreakdown)
      (res : Nat × Option TokenBreakdown),
      countLoop tok msgs total (some b) = .ok res →
      ∃ b', res.2 = some b' ∧
        b'.system + b'.user + b'.assistant + total ≤
          res.1 + (b.system + b.user + b.assistant) ∧
        ((∀ m ∈ msgs, m.role = "system" ∨ m.role = "user" ∨ m.role = "assistant") →
          b'.system + b'.user + b'.assistant + total =
            res.1 + (b.system + b.user + b.assistant)) := by
  intro msgs
  induction msgs with
  | nil =>
    intro total b res h
    simp only [countLoop] at h
    cases h
    exact ⟨b, rfl, by omega, fun _ => by omega⟩
  | cons msg rest ih =>
    intro total b res h
    simp only [countLoop] at h
    cases hc : tok.count_tokens msg.content with
    | error e => rw [hc] at h; cases h
    | ok count =>
      rw [hc] at h
      simp only [Option.map_some'] at h
      obtain ⟨b', hb', hle, heq⟩ := ih _ _ _ h
      refine ⟨b', hb', ?_, ?_⟩
      · have := addRole_sum_le b msg.role count
        omega
      · intro hall
        have h1 := heq (fun m hm => hall m (List.mem_cons_of_mem _ hm))
        have h2 := addRole_sum_eq b msg.role count (hall msg (List.mem_cons_self _ _))
        omega

/-- Claim C2 (counterexample): with breakdown enabled, a single message
whose role `"tool"` is unrecognized but whose content counts to zero tokens
makes `system + user + assistant = total` hold even though not every
message uses a recognized role — refuting the "equality iff all roles
recognized" direction at an explicit input. -/
theorem breakdown_equality_despite_unrecognized_role :
    count_tokens geminiPro.toTokenizer [{ role := "tool", content := "" }]
        "gemini-pro" true false =
      .ok { model := "gemini-pro", tokens := 0, input_cost := none,
            output_cost := none,
            breakdown := some { system := 0, user := 0, assistant := 0, total := 0 } } ∧
    (0 + 0 + 0 = 0) ∧
    ¬ (∀ m ∈ [({ role := "tool", content := "" } : Message)],
        m.role = "system" ∨ m.role = "user" ∨ m.role = "assistant") := by
  refine ⟨rfl, rfl, ?_⟩
  intro hall
  have := hall { role := "tool", content := "" } (List.mem_singleton_self _)
  simp at this

/-- Claim C2 (amended): for every tokenizer and message sequence counted
with breakdown enabled, the breakdown's `total` equals the result's token
count, which is the sum of the per-message counts; `system + user +
assistant ≤ total`; and if every message's role is one of `"system"`,
`"user"`, `"assistant"` then `system + user + assistant = total` (the
converse fails: unrecognized-role messages of zero count also give
equality). -/
theorem breakdown_invariants (tok : Tokenizer) (msgs : List Message)
    (name : String) (price : Bool) (res : TokenResult) (bd : TokenBreakdown)
    (h : count_tokens tok msgs name true price = .ok res)
    (hbd : res.breakdown = some bd) :
    (∃ counts, msgCounts tok msgs = .ok counts ∧ res.tokens = counts.sum) ∧
    bd.total = res.tokens ∧
    bd.system + bd.user + bd.assistant ≤ bd.total ∧
    ((∀ m ∈ msgs, m.role = "system" ∨ m.role = "user" ∨ m.role = "assistant") →
      bd.system + bd.user + bd.assistant = bd.total) := by
  unfold count_tokens at h
  simp only [if_true] at h
  cases hcl : countLoop tok msgs 0 (some TokenBreakdown.new) with
  | error e => rw [hcl] at h; cases h
  | ok p =>
    rw [hcl] at h
    cases h
    obtain ⟨counts, hm, ht⟩ := countLoop_total tok msgs 0 _ p hcl
    obtain ⟨b', hb', hle, heq⟩ := countLoop_buckets tok msgs 0 _ p hcl
    simp only [hb', Option.map_some'] at hbd
    cases hbd
    refine ⟨⟨counts, hm, by simpa using ht⟩, rfl, ?_, ?_⟩
    · simpa using hle
    · intro hall
      simpa using heq hall

/-- Claim C2 (witness): the amended invariant evaluated on the approximate
gemini-pro tokenizer and one `"user"` message. -/
theorem breakdown_invariants_witness :
    count_tokens geminiPro.toTokenizer [{ role := "user", content := "Hello" }]
        "gemini-pro" true false =
      .ok { model := "gemini-pro", tokens := 2, input_cost := none,
            output_cost := none,
            breakdown := some { system := 0, user := 2, assistant := 0, total := 2 } } ∧
    (0 + 2 + 0 ≤ 2 ∧ 0 + 2 + 0 = 2) := by
  refine ⟨rfl, ?_⟩
  have h := breakdown_invariants geminiPro.toTokenizer
    [{ role := "user", content := "Hello" }] "gemini-pro" false
    { model := "gemini-pro", tokens := 2, input_cost := none,
      output_cost := none,
      breakdown := some { system := 0, user := 2, assistant := 0, total := 2 } }
    { system := 0, user := 2, assistant := 0, total := 2 } rfl rfl
  exact ⟨h.2.2.1, h.2.2.2 (by intro m hm; simp at hm; subst hm; simp)⟩

theorem chunkOnes_length (l : List Char) :
    (chunkOnes l).length = (l.length + 3) / 4 := by
  induction l using chunkOnes.induct with
  | case1 => rfl
  | case2 _ => simp [chunkOnes]
  | case3 _ _ => simp [chunkOnes]
  | case4 _ _ _ => simp [chunkOnes]
  | case5 a b c d rest ih =>
    rw [chunkOnes]
    simp only [List.length_cons] at ih ⊢
    omega

/-- Claim C4: for every text, a backend that supports encoding counts
exactly `encode(text).length` tokens (the OpenAI backend always, since both
operations call the same BPE encoding; the Gemini backend via its chunk
encoding), and the Gemini backend without a loaded vocabulary reports the
deterministic estimate `ceil(character count / 4)` from `count_tokens`. -/
theorem count_consistent_with_encode :
    (∀ (t : OpenAITokenizer) (text : String),
      t.toTokenizer.count_tokens text =
        (t.toTokenizer.encode text).map List.length) ∧
    (∀ (g : GeminiTokenizer) (text : String),
      g.toTokenizer.count_tokens text =
        (g.toTokenizer.encode text).map List.length) ∧
    (∀ (g : GeminiTokenizer) (text : String), g.processor = none →
      g.toTokenizer.count_tokens text = .ok ((text.length + 3) / 4) ∧
      g.toTokenizer.encode text = .ok (chunkOnes text.data) ∧
      (chunkOnes text.data).length = (text.length + 3) / 4) := by
  refine ⟨fun t text => rfl, fun g text => ?_, fun g text hg => ?_⟩
  · unfold GeminiTokenizer.toTokenizer
    cases g.processor with
    | some p => cases p.spEncode text <;> rfl
    | none =>
      simp only [Except.map, chunkOnes_length]
      rfl
  · unfold GeminiTokenizer.toTokenizer
    rw [hg]
    exact ⟨rfl, rfl, chunkOnes_length text.data⟩

/-- Claim C4 (witness): `GeminiTokenizer::new("gemini-pro")` yields the
vocabulary-less tokenizer, whose count of `"Hello"` is the estimate
`ceil(5 / 4) = 2`, matching its encoding's length. -/
theorem count_consistent_with_encode_witness :
    GeminiTokenizer.new "gemini-pro" = .ok geminiPro ∧
    geminiPro.processor = none ∧
    geminiPro.toTokenizer.count_tokens "Hello" = .ok (("Hello".length + 3) / 4) ∧
    geminiPro.toTokenizer.encode "Hello" = .ok (chunkOnes "Hello".data) ∧
    (chunkOnes "Hello".data).length = 2 := by
  have h := count_consistent_with_encode.2.2 geminiPro "Hello" rfl
  exact ⟨rfl, rfl, h.1, h.2.1, by decide⟩

/-- Claim C6: `pricing_for` returns a pair only when the resolved model's
record carries both prices, and returns `none` whenever either price is
missing — a model with only one known price is treated as unpriced. -/
theorem pricing_requires_both_prices (r : ModelRegistry) (name : String) :
    (∀ p : ℚ × ℚ, r.pricing_for name = some p →
      ∃ info, r.get_model_info name = some info ∧
        info.input_price = some p.1 ∧ info.output_price = some p.2) ∧
    (∀ info, r.get_model_info name = some info →
      info.input_price = none ∨ info.output_price = none →
      r.pricing_for name = none) := by
  cases h : r.get_model_info name with
  | none =>
    refine ⟨fun p hp => ?_, fun info hinfo _ => Option.noConfusion hinfo⟩
    simp only [ModelRegistry.pricing_for, h] at hp
    exact Option.noConfusion hp
  | some info =>
    obtain ⟨prov, mod, ip, op⟩ := info
    constructor
    · intro p hp
      simp only [ModelRegistry.pricing_for, h] at hp
      cases ip with
      | none => simp at hp
      | some i =>
        cases op with
        | none => simp at hp
        | some o =>
          simp only [Option.some.injEq] at hp
          exact ⟨⟨prov, mod, some i, some o⟩, rfl, by rw [← hp], by rw [← hp]⟩
    · intro info' hinfo' hmiss
      injection hinfo' with hinfo'
      subst hinfo'
      simp only [ModelRegistry.pricing_for, h]
      rcases hmiss with hm | hm
      · simp only at hm
        subst hm
        rfl
      · simp only at hm
        subst hm
        cases ip <;> rfl

/-- Claim C6 (witness): a model registered with only an input price is
reported as unpriced. -/
theorem pricing_requires_both_prices_witness :
    halfPricedRegistry.get_model_info "half-model" =
      some { provider := "custom", model := "half-model",
             input_price := some (1/100), output_price := none } ∧
    halfPricedRegistry.pricing_for "half-model" = none :=
  ⟨rfl, (pricing_requires_both_prices halfPricedRegistry "half-model").2
    { provider := "custom", model := "half-model",
      input_price := some (1/100), output_price := none } rfl (Or.inr rfl)⟩

/-- Claim C5: under one tokenizer, the diff delta is the signed difference
`tokens(modified) - tokens(baseline)` (an `Int`, possibly negative), diffing
the two inputs in either order gives opposite deltas and swapped counts, a
reported cost difference is non-negative and order-independent, and the
report's fields are exactly the counts of the two sides with the cost
difference `|cost2 - cost1|` when both sides carry an input cost. -/
theorem diff_delta_antisymmetric (getBpe : String → Option CoreBPE)
    (input1 input2 m : String) (compare : List String) (price : Bool)
    (d d' : DiffResult)
    (h1 : run_diff getBpe input1 input2 (some m) compare price = .ok d)
    (h2 : run_diff getBpe input2 input1 (some m) compare price = .ok d') :
    d.delta = (d.modified : Int) - (d.original : Int) ∧
    d'.delta = -d.delta ∧
    d'.original = d.modified ∧ d'.modified = d.original ∧
    (∀ v, d.cost_diff = some v → 0 ≤ v ∧ d'.cost_diff = some v) ∧
    (∃ tok messages1 messages2 r1 r2,
      ModelRegistry.get_tokenizer getBpe ModelRegistry.new m = .ok tok ∧
      chooseParse input1 = .ok messages1 ∧
      chooseParse input2 = .ok messages2 ∧
      count_tokens tok messages1 m false price = .ok r1 ∧
      count_tokens tok messages2 m false price = .ok r2 ∧
      d.original = r1.tokens ∧ d.modified = r2.tokens ∧
      d.cost_diff = (if price then
        match r1.input_cost, r2.input_cost with
        | some c1, some c2 => some |c2 - c1|
        | _, _ => none
      else none)) := by
  cases hg : ModelRegistry.get_tokenizer getBpe ModelRegistry.new m with
  | error e => simp only [run_diff, hg] at h1; exact Except.noConfusion h1
  | ok tok =>
    cases hp1 : chooseParse input1 with
    | error e => simp only [run_diff, hg, hp1] at h1; exact Except.noConfusion h1
    | ok ms1 =>
      cases hp2 : chooseParse input2 with
      | error e => simp only [run_diff, hg, hp1, hp2] at h1; exact Except.noConfusion h1
      | ok ms2 =>
        cases hc1 : count_tokens tok ms1 m false price with
        | error e => simp only [run_diff, hg, hp1, hp2, hc1] at h1; exact Except.noConfusion h1
        | ok r1 =>
          cases hc2 : count_tokens tok ms2 m false price with
          | error e => simp only [run_diff, hg, hp1, hp2, hc1, hc2] at h1; exact Except.noConfusion h1
          | ok r2 =>
            simp only [run_diff, hg, hp1, hp2, hc1, hc2, Except.ok.injEq] at h1 h2
            subst h1
            subst h2
            refine ⟨rfl, by simp only; omega, rfl, rfl, ?_,
              tok, ms1, ms2, r1, r2, rfl, rfl, rfl, hc1, hc2, rfl, rfl, rfl⟩
            intro v hv
            cases price with
            | false => simp at hv
            | true =>
              cases hic1 : r1.input_cost with
              | none => simp [hic1] at hv
              | some c1 =>
                cases hic2 : r2.input_cost with
                | none => simp [hic1, hic2] at hv
                | some c2 =>
                  simp only [hic1, hic2, if_true, Option.some.injEq] at hv ⊢
                  subst hv
                  exact ⟨abs_nonneg _, by rw [abs_sub_comm]⟩

theorem get_tokenizer_prices (getBpe : String → Option CoreBPE)
    (r : ModelRegistry) (name : String) (tok : Tokenizer)
    (h : ModelRegistry.get_tokenizer getBpe r name = .ok tok) :
    tok.input_price_per_1k = (hardcodedPrices name).1 ∧
    tok.output_price_per_1k = (hardcodedPrices name).2 := by
  by_cases h1 : strStartsWith (ModelRegistry.resolve_alias name) "gpt-" = true ∨
      strStartsWith (ModelRegistry.resolve_alias name) "text-" = true
  · simp only [ModelRegistry.get_tokenizer, if_pos h1] at h
    simp only [hardcodedPrices, if_pos h1]
    cases hb : getBpe (ModelRegistry.resolve_alias name) with
    | none =>
      simp only [OpenAITokenizer.new, hb, Except.map, Except.mapError] at h
      exact Except.noConfusion h
    | some bpe =>
      simp only [OpenAITokenizer.new, hb, Except.map, Except.mapError,
        Except.ok.injEq] at h
      subst h
      exact ⟨rfl, rfl⟩
  · by_cases h2 : strStartsWith (ModelRegistry.resolve_alias name) "gemini-" = true
    · simp only [ModelRegistry.get_tokenizer, if_neg h1, if_pos h2,
        GeminiTokenizer.new, Except.map, Except.mapError, Except.ok.injEq] at h
      simp only [hardcodedPrices, if_neg h1, if_pos h2]
      subst h
      exact ⟨rfl, rfl⟩
    · simp only [ModelRegistry.get_tokenizer, if_neg h1, if_neg h2] at h
      exact Except.noConfusion h

theorem count_tokens_fields (tok : Tokenizer) (msgs : List Message)
    (name : String) (bd p : Bool) (res : TokenResult)
    (h : count_tokens tok msgs name bd p = .ok res) :
    res.model = name ∧
    res.input_cost = (if p then
      tok.input_price_per_1k.map (fun pr => (res.tokens : ℚ) / 1000 * pr)
    else none) ∧
    res.output_cost = (if p then
      tok.output_price_per_1k.map (fun pr => (res.tokens : ℚ) / 1000 * pr)
    else none) := by
  cases hcl : countLoop tok msgs 0 (if bd then some TokenBreakdown.new else none) with
  | error e => simp only [count_tokens, hcl] at h; exact Except.noConfusion h
  | ok pair =>
    obtain ⟨total, bd0⟩ := pair
    simp only [count_tokens, hcl, Except.ok.injEq] at h
    subst h
    exact ⟨rfl, rfl, rfl⟩

theorem processModels_costs (getBpe : String → Option CoreBPE)
    (r : ModelRegistry) (msgs : List Message) (bd p : Bool) :
    ∀ (models : List String) (results : List TokenResult),
      processModels getBpe r msgs bd p models = .ok results →
      ∀ res ∈ results,
        res.input_cost = (if p then
          (hardcodedPrices res.model).1.map (fun pr => (res.tokens : ℚ) / 1000 * pr)
        else none) ∧
        res.output_cost = (if p then
          (hardcodedPrices res.model).2.map (fun pr => (res.tokens : ℚ) / 1000 * pr)
        else none) := by
  intro models
  induction models with
  | nil =>
    intro results h res hres
    simp only [processModels, Except.ok.injEq] at h
    subst h
    simp at hres
  | cons name rest ih =>
    intro results h res hres
    cases hg : ModelRegistry.get_tokenizer getBpe r name with
    | error e => simp only [processModels, hg] at h; exact Except.noConfusion h
    | ok tok =>
      cases hc : count_tokens tok msgs name bd p with
      | error e => simp only [processModels, hg, hc] at h; exact Except.noConfusion h
      | ok res0 =>
        cases hrest : processModels getBpe r msgs bd p rest with
        | error e => simp only [processModels, hg, hc, hrest, Except.map] at h; exact Except.noConfusion h
        | ok results' =>
          simp only [processModels, hg, hc, hrest, Except.map,
            Except.ok.injEq] at h
          subst h
          rcases List.mem_cons.mp hres with hres0 | hres0
          · subst hres0
            obtain ⟨hm, hi, ho⟩ := count_tokens_fields tok msgs name bd p res hc
            obtain ⟨hpi, hpo⟩ := get_tokenizer_prices getBpe r name tok hg
            rw [hi, ho, hm, hpi, hpo]
            exact ⟨rfl, rfl⟩
          · exact ih results' hrest res hres0

/-- Claim C9: the registry of the run path (`ModelRegistry::new()`) is
constructed without pricing overrides and `get_tokenizer` never consults
the registry's catalog at all, so for every run (single model or
comparison list) each result's input/output cost is a pure function of the
requested model name, the token total and the tokenizer's built-in
hard-coded price table — pricing overrides and the catalog never influence
reported costs. -/
theorem run_costs_from_builtin_table (getBpe : String → Option CoreBPE)
    (input : String) (model : Option String) (compare : List String)
    (bd p : Bool) (results : List TokenResult)
    (h : run getBpe input model compare bd p = .ok results) :
    (∀ (r r' : ModelRegistry) (name : String),
      ModelRegistry.get_tokenizer getBpe r name =
        ModelRegistry.get_tokenizer getBpe r' name) ∧
    ∀ res ∈ results,
      res.input_cost = (if p then
        (hardcodedPrices res.model).1.map (fun pr => (res.tokens : ℚ) / 1000 * pr)
      else none) ∧
      res.output_cost = (if p then
        (hardcodedPrices res.model).2.map (fun pr => (res.tokens : ℚ) / 1000 * pr)
      else none) := by
  refine ⟨fun r r' name => rfl, ?_⟩
  by_cases hcmp : compare = []
  · cases model with
    | none => simp only [run, hcmp, ne_eq, not_true_eq_false, if_false] at h; exact Except.noConfusion h
    | some m =>
      cases hparse : chooseParse input with
      | error e =>
        simp only [run, hcmp, ne_eq, not_true_eq_false, if_false, hparse] at h
        exact Except.noConfusion h
      | ok messages =>
        simp only [run, hcmp, ne_eq, not_true_eq_false, if_false, hparse] at h
        exact processModels_costs getBpe ModelRegistry.new messages bd p [m]
          results h
  · cases hparse : chooseParse input with
    | error e => simp only [run, ne_eq, hcmp, not_false_eq_true, if_true, hparse] at h; exact Except.noConfusion h
    | ok messages =>
      simp only [run, ne_eq, hcmp, not_false_eq_true, if_true, hparse] at h
      exact processModels_costs getBpe ModelRegistry.new messages bd p compare
        results h

/-- Claim C5 (witness): diffing `"Hello world"` (3 tokens) against `"Hi"`
(1 token) under the approximate gemini-pro tokenizer yields delta `-2`,
and swapping the inputs yields `+2`. -/
theorem diff_delta_antisymmetric_witness :
    run_diff (fun _ => none) "Hello world" "Hi" (some "gemini-pro") [] false =
      .ok { model := "gemini-pro", original := 3, modified := 1,
            delta := -2, cost_diff := none } ∧
    run_diff (fun _ => none) "Hi" "Hello world" (some "gemini-pro") [] false =
      .ok { model := "gemini-pro", original := 1, modified := 3,
            delta := 2, cost_diff := none } ∧
    (-2 : Int) = (1 : Int) - (3 : Int) ∧ (2 : Int) = -(-2 : Int) := by
  have h := diff_delta_antisymmetric (fun _ => none) "Hello world" "Hi"
    "gemini-pro" [] false
    { model := "gemini-pro", original := 3, modified := 1,
      delta := -2, cost_diff := none }
    { model := "gemini-pro", original := 1, modified := 3,
      delta := 2, cost_diff := none }
    rfl rfl
  exact ⟨rfl, rfl, h.1, h.2.1⟩

/-- Claim C9 (witness): a priced run of `"Hello"` under `gemini-pro` (an
override-free registry) reports costs `(2/1000) * price` computed from the
built-in hard-coded table, and `get_tokenizer` gives the same answer on the
default registry and on an empty-catalog registry. -/
theorem run_costs_from_builtin_table_witness :
    run (fun _ => none) "Hello" (some "gemini-pro") [] false true =
      .ok [{ model := "gemini-pro", tokens := 2,
             input_cost := some (((2 : Nat) : ℚ) / 1000 * (1/800)),
             output_cost := some (((2 : Nat) : ℚ) / 1000 * (1/100)),
             breakdown := none }] ∧
    ModelRegistry.get_tokenizer (fun _ => none) ModelRegistry.new "gpt-4" =
      ModelRegistry.get_tokenizer (fun _ => none) { models := [] } "gpt-4" ∧
    some (((2 : Nat) : ℚ) / 1000 * (1/800)) =
      (if true then (hardcodedPrices "gemini-pro").1.map
        (fun pr => ((2 : Nat) : ℚ) / 1000 * pr) else none) := by
  have h := run_costs_from_builtin_table (fun _ => none) "Hello"
    (some "gemini-pro") [] false true
    [{ model := "gemini-pro", tokens := 2,
       input_cost := some (((2 : Nat) : ℚ) / 1000 * (1/800)),
       output_cost := some (((2 : Nat) : ℚ) / 1000 * (1/100)),
       breakdown := none }] rfl
  exact ⟨rfl, h.1 ModelRegistry.new { models := [] } "gpt-4",
    (h.2 _ (List.mem_singleton_self _)).1⟩

end Tokuin
